import Mathlib

/-!
# Verification of the QKD simulation scripts (BB84.py, E91.py)

Shallow embedding of the two quantum-key-distribution demonstration scripts:
the bit-string/byte serialization feeding privacy amplification, a SHA-256
implementation over `ℕ` (the `hashlib.sha256` call), the single- and two-qubit
real-amplitude state model for the circuits actually built by the scripts,
sifting, parameter estimation (QBER) and key distillation.
-/

namespace QKD

/-! ## Bit-string and byte serialization (privacy amplification input) -/

/-- Python `int(bitstring, 2)`: the bit string read as a big-endian binary numeral. -/
def intOfBits (s : List Bool) : ℕ :=
  s.foldl (fun acc b => 2 * acc + b.toNat) 0

/-- Python `n.to_bytes(L, 'big')`: big-endian serialization of `n` into exactly
`L` bytes (the Python call would raise an `OverflowError` for `n ≥ 256^L`, a
case the scripts never reach; this model truncates instead). -/
def toBytes (n : ℕ) : ℕ → List ℕ
  | 0 => []
  | L + 1 => toBytes (n / 256) L ++ [n % 256]

/-- Big-endian value of a byte list (decoding direction of `to_bytes`). -/
def natOfBytes (bs : List ℕ) : ℕ :=
  bs.foldl (fun acc b => 256 * acc + b) 0

/-- The `m` low bits of `n`, big-endian, as a bit string of length `m`. -/
def bitsOfNat : ℕ → ℕ → List Bool
  | 0, _ => []
  | m + 1, n => bitsOfNat m (n / 2) ++ [decide (n % 2 = 1)]

theorem intOfBits_append_singleton (s : List Bool) (b : Bool) :
    intOfBits (s ++ [b]) = 2 * intOfBits s + b.toNat := by
  simp [intOfBits, List.foldl_append]

theorem intOfBits_lt (s : List Bool) : intOfBits s < 2 ^ s.length := by
  induction s using List.reverseRecOn with
  | nil => simp [intOfBits]
  | append_singleton t b ih =>
      rw [intOfBits_append_singleton]
      have hb : b.toNat ≤ 1 := Bool.toNat_le b
      simp only [List.length_append, List.length_singleton, pow_succ]
      omega

theorem natOfBytes_append_singleton (bs : List ℕ) (y : ℕ) :
    natOfBytes (bs ++ [y]) = 256 * natOfBytes bs + y := by
  simp [natOfBytes, List.foldl_append]

theorem toBytes_length (n L : ℕ) : (toBytes n L).length = L := by
  induction L generalizing n with
  | zero => rfl
  | succ L ih => simp [toBytes, ih]

theorem natOfBytes_toBytes (L : ℕ) : ∀ n : ℕ, n < 256 ^ L →
    natOfBytes (toBytes n L) = n := by
  induction L with
  | zero => intro n hn; interval_cases n; rfl
  | succ L ih =>
      intro n hn
      have hdiv : n / 256 < 256 ^ L := by
        rw [Nat.div_lt_iff_lt_mul (by norm_num)]
        calc n < 256 ^ (L + 1) := hn
        _ = 256 ^ L * 256 := by ring
      rw [toBytes, natOfBytes_append_singleton, ih _ hdiv]
      omega

theorem bitsOfNat_intOfBits (s : List Bool) :
    bitsOfNat s.length (intOfBits s) = s := by
  induction s using List.reverseRecOn with
  | nil => rfl
  | append_singleton t b ih =>
      rw [intOfBits_append_singleton]
      have hlen : (t ++ [b]).length = t.length + 1 := by simp
      rw [hlen, bitsOfNat]
      have hd : (2 * intOfBits t + b.toNat) / 2 = intOfBits t := by
        cases b <;> (simp [Bool.toNat]; try omega)
      have hm : decide ((2 * intOfBits t + b.toNat) % 2 = 1) = b := by
        cases b <;> (simp [Bool.toNat]; try omega)
      rw [hd, hm, ih]

theorem bitsOfNat_zero_val (p : ℕ) : bitsOfNat p 0 = List.replicate p false := by
  induction p with
  | zero => rfl
  | succ p ih =>
      rw [bitsOfNat, Nat.zero_div, ih, List.replicate_succ']
      simp

theorem bitsOfNat_pad (m : ℕ) : ∀ p n : ℕ, n < 2 ^ m →
    bitsOfNat (p + m) n = List.replicate p false ++ bitsOfNat m n := by
  induction m with
  | zero =>
      intro p n hn
      interval_cases n
      simp [bitsOfNat, bitsOfNat_zero_val]
  | succ m ih =>
      intro p n hn
      have hdiv : n / 2 < 2 ^ m := by
        rw [Nat.div_lt_iff_lt_mul (by norm_num)]
        calc n < 2 ^ (m + 1) := hn
        _ = 2 ^ m * 2 := by ring
      have h1 : p + (m + 1) = (p + m) + 1 := by omega
      rw [h1, bitsOfNat, ih p (n / 2) hdiv, bitsOfNat, List.append_assoc]

/-! ## SHA-256 (FIPS 180-4), the `hashlib.sha256(...).hexdigest()` call

Machine words are `ℕ` reduced mod `2^32` by `w32`. -/

/-- Truncation to a 32-bit word. -/
def w32 (n : ℕ) : ℕ := n % 4294967296

/-- Right rotation of a 32-bit word by `k` positions. -/
def rotr32 (k n : ℕ) : ℕ := n / 2 ^ k + n % 2 ^ k * 2 ^ (32 - k)

/-- Function `Ch(x,y,z)`; `¬x` is taken inside 32 bits via xor with `2^32 - 1`. -/
def shaCh (x y z : ℕ) : ℕ := (x &&& y) ^^^ ((x ^^^ 4294967295) &&& z)

/-- Function `Maj(x,y,z)`. -/
def shaMaj (x y z : ℕ) : ℕ := (x &&& y) ^^^ (x &&& z) ^^^ (y &&& z)

/-- Function `Σ₀`. -/
def bsig0 (x : ℕ) : ℕ := rotr32 2 x ^^^ rotr32 13 x ^^^ rotr32 22 x

/-- Function `Σ₁`. -/
def bsig1 (x : ℕ) : ℕ := rotr32 6 x ^^^ rotr32 11 x ^^^ rotr32 25 x

/-- Function `σ₀`; the shift `x >>> 3` is `x / 8`. -/
def ssig0 (x : ℕ) : ℕ := rotr32 7 x ^^^ rotr32 18 x ^^^ x / 8

/-- Function `σ₁`; the shift `x >>> 10` is `x / 1024`. -/
def ssig1 (x : ℕ) : ℕ := rotr32 17 x ^^^ rotr32 19 x ^^^ x / 1024

/-- The 64 SHA-256 round constants (FIPS 180-4 §4.2.2, written in decimal). -/
def shaK : List ℕ :=
  [1116352408, 1899447441, 3049323471, 3921009573, 961987163,
   1508970993, 2453635748, 2870763221, 3624381080, 310598401,
   607225278, 1426881987, 1925078388, 2162078206, 2614888103,
   3248222580, 3835390401, 4022224774, 264347078, 604807628,
   770255983, 1249150122, 1555081692, 1996064986, 2554220882,
   2821834349, 2952996808, 3210313671, 3336571891, 3584528711,
   113926993, 338241895, 666307205, 773529912, 1294757372,
   1396182291, 1695183700, 1986661051, 2177026350, 2456956037,
   2730485921, 2820302411, 3259730800, 3345764771, 3516065817,
   3600352804, 4094571909, 275423344, 430227734, 506948616,
   659060556, 883997877, 958139571, 1322822218, 1537002063,
   1747873779, 1955562222, 2024104815, 2227730452, 2361852424,
   2428436474, 2756734187, 3204031479, 3329325298]

/-- The eight initial hash values (FIPS 180-4 §5.3.3, written in decimal). -/
def shaH0 : List ℕ :=
  [1779033703, 3144134277, 1013904242, 2773480762,
   1359893119, 2600822924, 528734635, 1541459225]

/-- Pack bytes into 32-bit words, big-endian, four at a time. -/
def bytesToWords : List ℕ → List ℕ
  | b0 :: b1 :: b2 :: b3 :: rest =>
      (((b0 * 256 + b1) * 256 + b2) * 256 + b3) :: bytesToWords rest
  | _ => []

/-- One message-schedule extension step: append `W[t]` for `t = w.length`. -/
def scheduleStep (w : List ℕ) : List ℕ :=
  w ++ [w32 (ssig1 (w.getD (w.length - 2) 0) + w.getD (w.length - 7) 0 +
             ssig0 (w.getD (w.length - 15) 0) + w.getD (w.length - 16) 0)]

/-- Iterate the schedule extension `k` times (48 times for SHA-256). -/
def extendSchedule : ℕ → List ℕ → List ℕ
  | 0, w => w
  | k + 1, w => extendSchedule k (scheduleStep w)

/-- One compression round on the eight-word working state. -/
def roundStep (st : List ℕ) (kw : ℕ × ℕ) : List ℕ :=
  match st with
  | [a, b, c, d, e, f, g, h] =>
      let t1 := w32 (h + bsig1 e + shaCh e f g + kw.1 + kw.2)
      let t2 := w32 (bsig0 a + shaMaj a b c)
      [w32 (t1 + t2), a, b, c, w32 (d + t1), e, f, g]
  | other => other

/-- Compress one 64-byte block into the running eight-word state. -/
def compressBlock (st : List ℕ) (block : List ℕ) : List ℕ :=
  let w := extendSchedule 48 (bytesToWords block)
  let fin := (List.zip shaK w).foldl roundStep st
  List.zipWith (fun x y => w32 (x + y)) st fin

/-- Split a byte list into 64-byte blocks; structural recursion on a fuel
bound (each step consumes at least one byte, so `l.length` fuel suffices). -/
def toBlocksAux : ℕ → List ℕ → List (List ℕ)
  | 0, _ => []
  | _, [] => []
  | fuel + 1, l => l.take 64 :: toBlocksAux fuel (l.drop 64)

/-- Split a byte list into 64-byte blocks (the padded message length is a
multiple of 64, so every produced block has 64 bytes). -/
def toBlocks (l : List ℕ) : List (List ℕ) := toBlocksAux l.length l

/-- SHA-256 padding: `0x80`, zero bytes, then the 64-bit big-endian bit
length, to a multiple of 64 bytes. -/
def shaPad (msg : List ℕ) : List ℕ :=
  msg ++ [128] ++ List.replicate ((119 - msg.length % 64) % 64) 0 ++
    toBytes (8 * msg.length) 8

/-- The eight-word SHA-256 state of a byte message. -/
def sha256Words (msg : List ℕ) : List ℕ :=
  (toBlocks (shaPad msg)).foldl compressBlock shaH0

/-- Lower-case hex digit. -/
def hexDigit (n : ℕ) : Char := "0123456789abcdef".toList.getD n '0'

/-- Eight-hex-digit rendering of a 32-bit word. -/
def wordToHex (n : ℕ) : List Char :=
  [hexDigit (n / 268435456 % 16), hexDigit (n / 16777216 % 16),
   hexDigit (n / 1048576 % 16), hexDigit (n / 65536 % 16),
   hexDigit (n / 4096 % 16), hexDigit (n / 256 % 16),
   hexDigit (n / 16 % 16), hexDigit (n % 16)]

/-- Python `hashlib.sha256(bytes).hexdigest()`: the 64-character lower-case hex
digest of a byte message. -/
def sha256hex (msg : List ℕ) : String :=
  ⟨((sha256Words msg).map wordToHex).flatten⟩

/-- FIPS 180-4 test vector: the digest of `b"abc"`. -/
theorem sha256hex_abc :
    sha256hex [97, 98, 99] =
      "ba7816bf8f01cfea414140de5dae2223b00361a396177a9cb410ff61f20015ad" := by
  decide

/-! ## Privacy amplification (`privacy_amplify_sha256` in both scripts) -/

/-- Function `privacy_amplify_sha256(bitstring)`: empty input gives `''`; otherwise the
bit string is read as a big-endian integer, serialized into
`(len + 7) // 8` big-endian bytes, and hashed with SHA-256 (hex digest). -/
def privacy_amplify_sha256 (s : List Bool) : String :=
  if s = [] then ("") else sha256hex (toBytes (intOfBits s) ((s.length + 7) / 8))

/-! ## Sifting (basis/angle reconciliation, both scripts)

Generic over the comparison type: `String` bases `'Z'`/`'X'` in BB84, the
measurement angles in E91; both scripts compare with `==` on the per-index
choice lists. -/

/-- Source `[i for i in range(N) if A_bases[i] == B_bases[i]]`. -/
def sift_positions {α : Type} [DecidableEq α] (N : ℕ) (basesA basesB : ℕ → α) :
    List ℕ :=
  (List.range N).filter fun i => decide (basesA i = basesB i)

/-- Source `[bits[i] for i in sift_positions]` (used for `sifted_A` and `sifted_B`). -/
def sifted_bits (pos : List ℕ) (bits : ℕ → Bool) : List Bool := pos.map bits

/-! ## Parameter estimation and key distillation (steps 4-5 of both scripts) -/

/-- Source `max(1, int(SAMPLE_FRACTION * sift_len))`; the sample fraction is modelled
as an exact rational (the scripts use `0.25`, exact in binary floating point
for every reachable length). -/
def sample_size (f : ℚ) (L : ℕ) : ℕ := max 1 (Int.toNat ⌊f * L⌋)

/-- Everything the scripts compute after sifting. -/
structure EstimationOutput where
  sampleSize : ℕ
  sampleIndices : List ℕ
  mismatches : ℕ
  qber : ℚ
  proceed : Bool
  remainingIndices : List ℕ
  rawA : List Bool
  rawB : List Bool
  finalKey : Option String

/-- Steps 4-5 of both scripts after sifting: the empty-sift guard (`raise
RuntimeError(msg)`), sample-size computation, the `random.sample(range(L), k)`
draw (modelled by the abstract source `draw`, called at exactly those
arguments), sample mismatch count, `QBER = mismatches / sample_size`, the
removal of sampled positions, both raw keys, the `QBER > threshold` abort
decision, and the demo privacy amplification of the sender key on proceed. -/
def estimation_run (f threshold : ℚ) (msg : String) (sA sB : List Bool)
    (draw : ℕ → ℕ → List ℕ) : Except String EstimationOutput :=
  let L := sA.length
  if L = 0 then .error msg
  else
    let k := sample_size f L
    let idxs := draw L k
    let m := idxs.countP fun i => decide (sA.getD i false ≠ sB.getD i false)
    let q : ℚ := (m : ℚ) / (k : ℚ)
    let rem := (List.range L).filter fun i => decide (i ∉ idxs)
    let rawA := rem.map fun i => sA.getD i false
    let rawB := rem.map fun i => sB.getD i false
    .ok ⟨k, idxs, m, q, decide (q ≤ threshold), rem, rawA, rawB,
         if q ≤ threshold then some (privacy_amplify_sha256 rawA) else none⟩

/-! ## Single-qubit state model (BB84 circuits)

The BB84 circuits use only `x` and `h` on one qubit, so every reachable state
has real amplitudes; a state is its amplitude pair `(a0, a1)`. A single-shot
measurement of the `AerSimulator` backend returns 1 with the Born probability
`a1 ^ 2`, which is what the model exposes. -/

/-- Real amplitudes of a one-qubit state: `a0` on `|0⟩`, `a1` on `|1⟩`. -/
structure Qubit where
  a0 : ℝ
  a1 : ℝ

/-- The initial state `|0⟩` of `QuantumCircuit(1, 1)`. -/
def ket0 : Qubit := ⟨1, 0⟩

/-- The `qc.x(0)` gate. -/
def xGate (q : Qubit) : Qubit := ⟨q.a1, q.a0⟩

/-- The `qc.h(0)` gate. -/
noncomputable def hGate (q : Qubit) : Qubit :=
  ⟨(q.a0 + q.a1) / Real.sqrt 2, (q.a0 - q.a1) / Real.sqrt 2⟩

/-- Function `prepare_state(bit, basis)`: `'Z'` applies `x` for bit 1; `'X'` applies
`h` (bit 0) or `x` then `h` (bit 1); any other label raises `ValueError`. -/
noncomputable def prepare_state (bit : Bool) (basis : String) :
    Except String Qubit :=
  if basis = "Z" then .ok (if bit then xGate ket0 else ket0)
  else if basis = "X" then .ok (if bit then hGate (xGate ket0) else hGate ket0)
  else .error ("basis must be 'Z' or 'X'")

/-- Function `measure_in_basis(qc_prep, basis)`: applies `h` only when the label equals
`'X'` (any other label measures directly), then measures; the value is the
Born probability of the single-shot outcome 1. -/
noncomputable def measure_in_basis_probOne (q : Qubit) (basis : String) : ℝ :=
  if basis = "X" then (hGate q).a1 ^ 2 else q.a1 ^ 2

/-! ## Two-qubit state model (E91 circuits)

The E91 circuits use `h` and `cx` on `|00⟩` plus `ry` rotations, all with real
matrices; a state is its amplitude function `Bool → Bool → ℝ` indexed by the
values of qubit 0 and qubit 1. -/

/-- Real two-qubit amplitudes: `ψ b0 b1` is the amplitude of qubit 0 reading
`b0` and qubit 1 reading `b1`. -/
def TwoQubit : Type := Bool → Bool → ℝ

/-- The initial state `|00⟩` of `QuantumCircuit(2, 2)`. -/
noncomputable def ket00 : TwoQubit := fun b0 b1 =>
  if b0 = false ∧ b1 = false then 1 else 0

/-- The `qc.h(0)` gate on two qubits. -/
noncomputable def h0Gate (ψ : TwoQubit) : TwoQubit := fun b0 b1 =>
  if b0 then (ψ false b1 - ψ true b1) / Real.sqrt 2
  else (ψ false b1 + ψ true b1) / Real.sqrt 2

/-- The `qc.cx(0, 1)` gate. -/
def cx01Gate (ψ : TwoQubit) : TwoQubit := fun b0 b1 => ψ b0 (xor b1 b0)

/-- The `qc.x(1)` gate. -/
def x1Gate (ψ : TwoQubit) : TwoQubit := fun b0 b1 => ψ b0 (!b1)

/-- Gate `qc.ry(-2*θ, 0)`: the rotation the scripts apply to measure qubit 0 at
angle `θ`; its matrix is `[[cos θ, sin θ], [-sin θ, cos θ]]`. -/
noncomputable def ry0Gate (θ : ℝ) (ψ : TwoQubit) : TwoQubit := fun b0 b1 =>
  if b0 then -Real.sin θ * ψ false b1 + Real.cos θ * ψ true b1
  else Real.cos θ * ψ false b1 + Real.sin θ * ψ true b1

/-- Gate `qc.ry(-2*θ, 1)`: the same rotation on qubit 1. -/
noncomputable def ry1Gate (θ : ℝ) (ψ : TwoQubit) : TwoQubit := fun b0 b1 =>
  if b1 then -Real.sin θ * ψ b0 false + Real.cos θ * ψ b0 true
  else Real.cos θ * ψ b0 false + Real.sin θ * ψ b0 true

/-- Function `prepare_bell_pair()`: `h(0)` then `cx(0, 1)` on `|00⟩`. -/
noncomputable def prepare_bell_pair : TwoQubit := cx01Gate (h0Gate ket00)

/-- Born probability that a joint measurement reads `(a, b)` on qubits
`(0, 1)`. -/
noncomputable def jointProb (ψ : TwoQubit) (a b : Bool) : ℝ := ψ a b ^ 2

/-- Function `measure_bell_pair(qc, angle_A, angle_B)`: probability of the joint
single-shot outcome `(a, b)` after the two `ry` rotations. -/
noncomputable def measure_bell_pair_prob (ψ : TwoQubit) (angleA angleB : ℝ)
    (a b : Bool) : ℝ :=
  jointProb (ry1Gate angleB (ry0Gate angleA ψ)) a b

/-- Probability that the sender's (qubit 0) outcome of `measure_bell_pair`
is 1, marginalizing over the receiver's bit. -/
noncomputable def sender_probOne (ψ : TwoQubit) (angleA angleB : ℝ) : ℝ :=
  measure_bell_pair_prob ψ angleA angleB true false +
    measure_bell_pair_prob ψ angleA angleB true true

/-- Probability that Eve's single-qubit measurement of qubit 1 (after
`ry(-2*eve_angle, 1)`) reads 1, marginalizing over qubit 0. -/
noncomputable def eve_intercept_probOne (ψ : TwoQubit) (eveAngle : ℝ) : ℝ :=
  (ry1Gate eveAngle ψ) false true ^ 2 + (ry1Gate eveAngle ψ) true true ^ 2

/-- Parse `int(list(job.result().get_counts().keys())[0])` for Eve's measurement:
the counts key of `QuantumCircuit(2, 2)` is the two-character classical
register readout `'c1c0'`, and `int` parses it as a DECIMAL numeral. -/
def countsKeyParse (c1 c0 : Bool) : ℕ := 10 * c1.toNat + c0.toNat

/-- Eve's stored measurement value: `measure(1, 1)` writes her outcome bit
into classical bit 1 while classical bit 0 stays 0, so the parsed value is
`10 * bit`. -/
def eve_meas (evBit : Bool) : ℕ := countsKeyParse evBit false

/-- Eve's resend: a fresh `QuantumCircuit(2, 2)` with `x(1)` applied exactly
when the stored value equals 1. -/
noncomputable def eve_resend (m : ℕ) : TwoQubit :=
  if m = 1 then x1Gate ket00 else ket00

/-! ## Supporting lemmas -/

theorem intOfBits_lt_pow256 (s : List Bool) :
    intOfBits s < 256 ^ ((s.length + 7) / 8) := by
  calc intOfBits s < 2 ^ s.length := intOfBits_lt s
  _ ≤ 2 ^ (8 * ((s.length + 7) / 8)) := Nat.pow_le_pow_right (by norm_num) (by omega)
  _ = 256 ^ ((s.length + 7) / 8) := by rw [pow_mul]; norm_num

theorem length_filter_mem_eq (idxs : List ℕ) (L : ℕ) (hnd : idxs.Nodup)
    (hlt : ∀ i ∈ idxs, i < L) :
    ((List.range L).filter fun i => decide (i ∈ idxs)).length = idxs.length := by
  have hperm : ((List.range L).filter fun i => decide (i ∈ idxs)).Perm idxs := by
    apply List.perm_of_nodup_nodup_toFinset_eq
      (List.Nodup.filter _ (List.nodup_range L)) hnd
    ext a
    simp only [List.mem_toFinset, List.mem_filter, List.mem_range,
      decide_eq_true_eq]
    exact ⟨fun h => h.2, fun h => ⟨hlt a h, h⟩⟩
  exact hperm.length_eq

theorem length_filter_not_mem_eq (idxs : List ℕ) (L : ℕ) (hnd : idxs.Nodup)
    (hlt : ∀ i ∈ idxs, i < L) :
    ((List.range L).filter fun i => decide (i ∉ idxs)).length =
      L - idxs.length := by
  have hmem := length_filter_mem_eq idxs L hnd hlt
  have hfun : (fun i => decide (i ∉ idxs)) = (fun i => !decide (i ∈ idxs)) := by
    funext i; simp [decide_not]
  have htot :=
    List.length_eq_countP_add_countP (fun i => decide (i ∈ idxs)) (List.range L)
  simp only [List.countP_eq_length_filter, List.length_range,
    decide_eq_true_eq, decide_not] at htot
  rw [hfun]
  omega

/-! ## Claim theorems -/

/-- C7: with an empty sifted sequence, the post-sifting stage fails fatally
with the script's `RuntimeError` message, before any sampling, QBER
computation or key distillation (the result is the error for every random
source and every parameter). -/
theorem empty_sift_is_fatal (f t : ℚ) (msg : String) (sB : List Bool)
    (draw : ℕ → ℕ → List ℕ) :
    estimation_run f t msg [] sB draw = .error msg := by
  simp [estimation_run]

/-- C8: sifting keeps exactly the indices below `N` where the sender's and
receiver's basis/angle agree, in increasing (original) index order; the paired
sifted bit lists line up index by index, and the sifted length is the number
of matching indices. -/
theorem sifting_correct {α : Type} [DecidableEq α] (N : ℕ)
    (basesA basesB : ℕ → α) (bitsA bitsB : ℕ → Bool) :
    (∀ i, i ∈ sift_positions N basesA basesB ↔ i < N ∧ basesA i = basesB i) ∧
    (sift_positions N basesA basesB).Pairwise (· < ·) ∧
    (sifted_bits (sift_positions N basesA basesB) bitsA).zip
        (sifted_bits (sift_positions N basesA basesB) bitsB) =
      (sift_positions N basesA basesB).map (fun i => (bitsA i, bitsB i)) ∧
    (sift_positions N basesA basesB).length =
      (List.range N).countP fun i => decide (basesA i = basesB i) := by
  refine ⟨?_, ?_, ?_, ?_⟩
  · intro i
    simp only [sift_positions, List.mem_filter, List.mem_range,
      decide_eq_true_eq]
  · exact List.Pairwise.sublist (List.filter_sublist _) (List.pairwise_lt_range N)
  · simp [sifted_bits, List.zip_map']
  · simp [sift_positions, List.countP_eq_length_filter]

/-- C9: serializing a nonempty bit string into `⌈m/8⌉` big-endian bytes and
decoding those bytes back into `m` bits recovers the bit string exactly,
leading zero bits included. -/
theorem byte_encoding_roundtrip (s : List Bool) (_h : 1 ≤ s.length) :
    bitsOfNat s.length
      (natOfBytes (toBytes (intOfBits s) ((s.length + 7) / 8))) = s := by
  rw [natOfBytes_toBytes _ _ (intOfBits_lt_pow256 s), bitsOfNat_intOfBits]

/-- Witness for C9 at the concrete bit string `101`. -/
theorem byte_encoding_roundtrip_witness :
    1 ≤ ([true, false, true] : List Bool).length ∧
    bitsOfNat ([true, false, true] : List Bool).length
        (natOfBytes (toBytes (intOfBits [true, false, true])
          ((([true, false, true] : List Bool).length + 7) / 8))) =
      [true, false, true] :=
  ⟨by decide, byte_encoding_roundtrip [true, false, true] (by decide)⟩

/-- C10: under the configuration precondition `0 < f ≤ 1` and a nonempty
sifted sequence, the sample size never exceeds the sifted length, so
`random.sample(range(L), sample_size)` is always well defined. -/
theorem sample_size_le_sift_len (f : ℚ) (L : ℕ) (_h0 : 0 < f) (h1 : f ≤ 1)
    (hL : 1 ≤ L) : sample_size f L ≤ L := by
  have hfL : f * (L : ℚ) ≤ (L : ℚ) := by
    calc f * (L : ℚ) ≤ 1 * (L : ℚ) :=
      mul_le_mul_of_nonneg_right h1 (by positivity)
    _ = (L : ℚ) := one_mul _
  have hfl : ⌊f * (L : ℚ)⌋ ≤ (L : ℤ) := by
    calc ⌊f * (L : ℚ)⌋ ≤ ⌊(L : ℚ)⌋ := Int.floor_le_floor hfL
    _ = (L : ℤ) := Int.floor_natCast L
  have : Int.toNat ⌊f * (L : ℚ)⌋ ≤ L := by omega
  simp only [sample_size, max_le_iff]
  exact ⟨hL, this⟩

/-- Witness for C10 at `f = 1/4`, `L = 4`. -/
theorem sample_size_le_sift_len_witness :
    0 < (1 / 4 : ℚ) ∧ (1 / 4 : ℚ) ≤ 1 ∧ 1 ≤ 4 ∧ sample_size (1 / 4) 4 ≤ 4 :=
  ⟨by norm_num, by norm_num, by norm_num,
   sample_size_le_sift_len (1 / 4) 4 (by norm_num) (by norm_num) (by norm_num)⟩

/-- C5: the final key of an empty raw key is the empty string (no hashing
error); for a nonempty raw key it is the SHA-256 hex digest of the raw key
read as a big-endian integer and serialized into `⌈len/8⌉` big-endian bytes,
whose bit expansion is the raw key left-padded with zero bits. -/
theorem privacy_amplification_correct :
    privacy_amplify_sha256 [] = "" ∧
    ∀ s : List Bool, s ≠ [] →
      privacy_amplify_sha256 s =
          sha256hex (toBytes (intOfBits s) ((s.length + 7) / 8)) ∧
      (toBytes (intOfBits s) ((s.length + 7) / 8)).length =
          (s.length + 7) / 8 ∧
      natOfBytes (toBytes (intOfBits s) ((s.length + 7) / 8)) = intOfBits s ∧
      bitsOfNat (8 * ((s.length + 7) / 8))
          (natOfBytes (toBytes (intOfBits s) ((s.length + 7) / 8))) =
        List.replicate (8 * ((s.length + 7) / 8) - s.length) false ++ s := by
  refine ⟨rfl, fun s hs => ⟨?_, toBytes_length _ _, ?_, ?_⟩⟩
  · rw [privacy_amplify_sha256, if_neg hs]
  · exact natOfBytes_toBytes _ _ (intOfBits_lt_pow256 s)
  · rw [natOfBytes_toBytes _ _ (intOfBits_lt_pow256 s)]
    have h8 : 8 * ((s.length + 7) / 8) =
        (8 * ((s.length + 7) / 8) - s.length) + s.length := by omega
    rw [h8, bitsOfNat_pad s.length _ (intOfBits s) (intOfBits_lt s),
      bitsOfNat_intOfBits, Nat.add_sub_cancel]

/-- Witness for C5 at the one-bit raw key `1`. -/
theorem privacy_amplification_correct_witness :
    ([true] : List Bool) ≠ [] ∧
    (privacy_amplify_sha256 [true] =
        sha256hex (toBytes (intOfBits [true])
          ((([true] : List Bool).length + 7) / 8)) ∧
     (toBytes (intOfBits [true]) ((([true] : List Bool).length + 7) / 8)).length =
        (([true] : List Bool).length + 7) / 8 ∧
     natOfBytes (toBytes (intOfBits [true])
        ((([true] : List Bool).length + 7) / 8)) = intOfBits [true] ∧
     bitsOfNat (8 * ((([true] : List Bool).length + 7) / 8))
        (natOfBytes (toBytes (intOfBits [true])
          ((([true] : List Bool).length + 7) / 8))) =
      List.replicate (8 * ((([true] : List Bool).length + 7) / 8) -
        ([true] : List Bool).length) false ++ [true]) :=
  ⟨by decide, privacy_amplification_correct.2 [true] (by decide)⟩

/-- C2: on a nonempty sifted sequence, and for a random draw honoring the
`random.sample` contract (distinct indices in `[0, L)`, exactly `sampleSize`
of them), parameter estimation succeeds and returns
`sampleSize = max 1 ⌊f·L⌋`, the drawn index set, a mismatch count equal to the
number of sampled positions where the two sifted bits differ,
`QBER = mismatches / sampleSize`, and `proceed` exactly when
`QBER ≤ threshold`. -/
theorem parameter_estimation_correct (f t : ℚ) (msg : String)
    (sA sB : List Bool) (draw : ℕ → ℕ → List ℕ) (hL : 1 ≤ sA.length)
    (hnd : (draw sA.length (sample_size f sA.length)).Nodup)
    (hlen : (draw sA.length (sample_size f sA.length)).length =
      sample_size f sA.length)
    (hlt : ∀ i ∈ draw sA.length (sample_size f sA.length), i < sA.length) :
    ∃ out, estimation_run f t msg sA sB draw = .ok out ∧
      out.sampleSize = max 1 (Int.toNat ⌊f * (sA.length : ℚ)⌋) ∧
      out.sampleIndices = draw sA.length out.sampleSize ∧
      out.sampleIndices.Nodup ∧
      out.sampleIndices.length = out.sampleSize ∧
      (∀ i ∈ out.sampleIndices, i < sA.length) ∧
      out.mismatches = out.sampleIndices.countP
        (fun i => decide (sA.getD i false ≠ sB.getD i false)) ∧
      out.qber = (out.mismatches : ℚ) / (out.sampleSize : ℚ) ∧
      (out.proceed = true ↔ out.qber ≤ t) := by
  have hL0 : ¬ sA.length = 0 := by omega
  unfold estimation_run
  rw [if_neg hL0]
  exact ⟨_, rfl, rfl, rfl, hnd, hlen, hlt, rfl, rfl, decide_eq_true_iff⟩

/-- Witness for C2: one sifted pair `(1, 0)`, the draw picking index 0. -/
theorem parameter_estimation_correct_witness :
    1 ≤ ([true] : List Bool).length ∧
    ((fun _ _ => [0]) ([true] : List Bool).length
        (sample_size (1/4) ([true] : List Bool).length) : List ℕ).Nodup ∧
    ((fun _ _ => [0]) ([true] : List Bool).length
        (sample_size (1/4) ([true] : List Bool).length) : List ℕ).length =
      sample_size (1/4) ([true] : List Bool).length ∧
    (∀ i ∈ ((fun _ _ => [0]) ([true] : List Bool).length
        (sample_size (1/4) ([true] : List Bool).length) : List ℕ),
      i < ([true] : List Bool).length) ∧
    ∃ out, estimation_run (1/4) (11/100) ("err") [true] [false]
        (fun _ _ => [0]) = .ok out ∧
      out.sampleSize = max 1 (Int.toNat ⌊(1/4 : ℚ) * (([true] : List Bool).length : ℚ)⌋) ∧
      out.sampleIndices = (fun _ _ => [0]) ([true] : List Bool).length out.sampleSize ∧
      out.sampleIndices.Nodup ∧
      out.sampleIndices.length = out.sampleSize ∧
      (∀ i ∈ out.sampleIndices, i < ([true] : List Bool).length) ∧
      out.mismatches = out.sampleIndices.countP
        (fun i => decide (([true] : List Bool).getD i false ≠
          ([false] : List Bool).getD i false)) ∧
      out.qber = (out.mismatches : ℚ) / (out.sampleSize : ℚ) ∧
      (out.proceed = true ↔ out.qber ≤ (11/100 : ℚ)) :=
  ⟨by decide, by decide,
   by norm_num [sample_size],
   by intro i hi; simp at hi; subst hi; decide,
   parameter_estimation_correct (1/4) (11/100) ("err") [true] [false]
     (fun _ _ => [0]) (by decide) (by decide)
     (by norm_num [sample_size])
     (by intro i hi; simp at hi; subst hi; decide)⟩

/-- C3: whenever estimation succeeds (under the `random.sample` contract),
the sifted length splits exactly into the sample size plus the raw key
length, both raw keys have length `L - sampleSize`, and the sample size is at
least 1. -/
theorem sift_sample_rawkey_invariant (f t : ℚ) (msg : String)
    (sA sB : List Bool) (draw : ℕ → ℕ → List ℕ) (hL : 1 ≤ sA.length)
    (hnd : (draw sA.length (sample_size f sA.length)).Nodup)
    (hlen : (draw sA.length (sample_size f sA.length)).length =
      sample_size f sA.length)
    (hlt : ∀ i ∈ draw sA.length (sample_size f sA.length), i < sA.length) :
    ∃ out, estimation_run f t msg sA sB draw = .ok out ∧
      sA.length = out.sampleSize + out.rawA.length ∧
      out.rawA.length = sA.length - out.sampleSize ∧
      out.rawB.length = out.rawA.length ∧
      1 ≤ out.sampleSize := by
  have hL0 : ¬ sA.length = 0 := by omega
  have hrem : ((List.range sA.length).filter fun i =>
      decide (i ∉ draw sA.length (sample_size f sA.length))).length =
      sA.length - sample_size f sA.length := by
    rw [length_filter_not_mem_eq _ _ hnd hlt, hlen]
  have hmem := length_filter_mem_eq _ _ hnd hlt
  have hk : sample_size f sA.length ≤ sA.length := by
    rw [hlen] at hmem
    calc sample_size f sA.length
        = ((List.range sA.length).filter fun i =>
            decide (i ∈ draw sA.length (sample_size f sA.length))).length :=
          hmem.symm
      _ ≤ (List.range sA.length).length := (List.filter_sublist _).length_le
      _ = sA.length := List.length_range _
  unfold estimation_run
  rw [if_neg hL0]
  refine ⟨_, rfl, ?_, ?_, ?_, le_max_left 1 _⟩
  · simp only [List.length_map, hrem]; omega
  · simp only [List.length_map, hrem]
  · simp only [List.length_map]

/-- Witness for C3: two sifted pairs, the draw picking index 1. -/
theorem sift_sample_rawkey_invariant_witness :
    1 ≤ ([true, true] : List Bool).length ∧
    ((fun _ _ => [1]) ([true, true] : List Bool).length
        (sample_size (1/4) ([true, true] : List Bool).length) : List ℕ).Nodup ∧
    ((fun _ _ => [1]) ([true, true] : List Bool).length
        (sample_size (1/4) ([true, true] : List Bool).length) : List ℕ).length =
      sample_size (1/4) ([true, true] : List Bool).length ∧
    (∀ i ∈ ((fun _ _ => [1]) ([true, true] : List Bool).length
        (sample_size (1/4) ([true, true] : List Bool).length) : List ℕ),
      i < ([true, true] : List Bool).length) ∧
    ∃ out, estimation_run (1/4) (11/100) ("err") [true, true] [true, false]
        (fun _ _ => [1]) = .ok out ∧
      ([true, true] : List Bool).length = out.sampleSize + out.rawA.length ∧
      out.rawA.length = ([true, true] : List Bool).length - out.sampleSize ∧
      out.rawB.length = out.rawA.length ∧
      1 ≤ out.sampleSize :=
  ⟨by decide, by decide,
   by norm_num [sample_size],
   by intro i hi; simp at hi; subst hi; decide,
   sift_sample_rawkey_invariant (1/4) (11/100) ("err") [true, true]
     [true, false] (fun _ _ => [1]) (by decide) (by decide)
     (by norm_num [sample_size])
     (by intro i hi; simp at hi; subst hi; decide)⟩

theorem sqrt2_mul_self : Real.sqrt 2 * Real.sqrt 2 = 2 :=
  Real.mul_self_sqrt (by norm_num)

theorem sqrt2_ne_zero : Real.sqrt 2 ≠ 0 := by positivity

theorem sq_div_sqrt2 (x : ℝ) : (x / Real.sqrt 2) ^ 2 = x ^ 2 / 2 := by
  rw [div_pow, Real.sq_sqrt]; norm_num

/-- The `h` gate is an involution, so measuring an `'X'`-prepared state in
the `'X'` basis undoes the preparation. -/
theorem hGate_hGate (q : Qubit) : hGate (hGate q) = q := by
  obtain ⟨x, y⟩ := q
  simp only [hGate]
  congr 1
  · field_simp
  · field_simp

theorem measure_label_Z (q : Qubit) :
    measure_in_basis_probOne q ("Z") = q.a1 ^ 2 := by
  simp only [measure_in_basis_probOne]
  rw [if_neg (by decide)]

theorem measure_label_X (q : Qubit) :
    measure_in_basis_probOne q ("X") = (hGate q).a1 ^ 2 := by
  simp [measure_in_basis_probOne]

/-- C4: for valid bases, measuring in the preparation basis returns the
prepared bit with probability 1 (outcome 1 has probability `b`), while
measuring in the other basis returns 1 with probability exactly `1/2`
independent of the bit; hence a sifted (matching-basis, no-Eve) pair always
agrees. -/
theorem bb84_measurement_stats (b : Bool) (P M : String)
    (hP : P = "Z" ∨ P = "X") (hM : M = "Z" ∨ M = "X") :
    ∃ q, prepare_state b P = .ok q ∧
      (M = P → measure_in_basis_probOne q M = if b then 1 else 0) ∧
      (M ≠ P → measure_in_basis_probOne q M = 1 / 2) := by
  rcases hP with rfl | rfl <;> rcases hM with rfl | rfl <;> cases b
  · refine ⟨ket0, rfl, fun _ => ?_, fun hm => absurd rfl hm⟩
    rw [measure_label_Z]; norm_num [ket0]
  · refine ⟨xGate ket0, rfl, fun _ => ?_, fun hm => absurd rfl hm⟩
    rw [measure_label_Z]; norm_num [xGate, ket0]
  · refine ⟨ket0, rfl, fun hm => absurd hm (by decide), fun _ => ?_⟩
    rw [measure_label_X]
    simp only [hGate, ket0]
    rw [sq_div_sqrt2]; norm_num
  · refine ⟨xGate ket0, rfl, fun hm => absurd hm (by decide), fun _ => ?_⟩
    rw [measure_label_X]
    simp only [hGate, xGate, ket0]
    rw [sq_div_sqrt2]; norm_num
  · refine ⟨hGate ket0, rfl, fun hm => absurd hm (by decide), fun _ => ?_⟩
    rw [measure_label_Z]
    simp only [hGate, ket0]
    rw [sq_div_sqrt2]; norm_num
  · refine ⟨hGate (xGate ket0), rfl, fun hm => absurd hm (by decide),
      fun _ => ?_⟩
    rw [measure_label_Z]
    simp only [hGate, xGate, ket0]
    rw [sq_div_sqrt2]; norm_num
  · refine ⟨hGate ket0, rfl, fun _ => ?_, fun hm => absurd rfl hm⟩
    rw [measure_label_X, hGate_hGate]; norm_num [ket0]
  · refine ⟨hGate (xGate ket0), rfl, fun _ => ?_, fun hm => absurd rfl hm⟩
    rw [measure_label_X, hGate_hGate]; norm_num [xGate, ket0]

/-- Witness for C4 at bit 1, preparation basis `'Z'`, measurement bases `'Z'`
and `'X'`. -/
theorem bb84_measurement_stats_witness :
    (("Z" : String) = "Z" ∨ ("Z" : String) = "X") ∧
    (("X" : String) = "Z" ∨ ("X" : String) = "X") ∧
    (∃ q, prepare_state true ("Z") = .ok q ∧
      (("Z" : String) = "Z" → measure_in_basis_probOne q ("Z") =
        if true then 1 else 0) ∧
      (("Z" : String) ≠ "Z" → measure_in_basis_probOne q ("Z") = 1 / 2)) ∧
    (∃ q, prepare_state true ("Z") = .ok q ∧
      (("X" : String) = "Z" → measure_in_basis_probOne q ("X") =
        if true then 1 else 0) ∧
      (("X" : String) ≠ "Z" → measure_in_basis_probOne q ("X") = 1 / 2)) :=
  ⟨Or.inl rfl, Or.inr rfl,
   bb84_measurement_stats true ("Z") ("Z") (Or.inl rfl) (Or.inl rfl),
   bb84_measurement_stats true ("Z") ("X") (Or.inl rfl) (Or.inr rfl)⟩

/-- C6 counterexample: `measure_in_basis` consumes the invalid basis label
`'Y'` without failing: on the prepared `|1⟩` state it yields outcome 1 with
probability 1, exactly as a successful `'Z'`-basis measurement does, so not
every operation consuming an invalid label fails fatally. -/
theorem measure_accepts_invalid_label :
    measure_in_basis_probOne (xGate ket0) ("Y") = 1 ∧
    measure_in_basis_probOne (xGate ket0) ("Y") =
      measure_in_basis_probOne (xGate ket0) ("Z") := by
  constructor <;> simp [measure_in_basis_probOne, xGate, ket0]

/-- C6 amended: `prepare_state` fails fatally on every basis label other than
`'Z'` and `'X'`, but `measure_in_basis` silently treats every label other
than `'X'` (invalid ones included) as `'Z'`. -/
theorem basis_label_validation (b : Bool) (q : Qubit) (s t : String)
    (hz : s ≠ "Z") (hx : s ≠ "X") (ht : t ≠ "X") :
    prepare_state b s = .error ("basis must be 'Z' or 'X'") ∧
    measure_in_basis_probOne q t = measure_in_basis_probOne q ("Z") := by
  constructor
  · simp [prepare_state, hz, hx]
  · simp [measure_in_basis_probOne, ht]

/-- Witness for the amended C6 at labels `'Y'` (preparation) and `'Q'`
(measurement). -/
theorem basis_label_validation_witness :
    ("Y" : String) ≠ "Z" ∧ ("Y" : String) ≠ "X" ∧ ("Q" : String) ≠ "X" ∧
    (prepare_state true ("Y") = .error ("basis must be 'Z' or 'X'") ∧
     measure_in_basis_probOne ket0 ("Q") = measure_in_basis_probOne ket0 ("Z")) :=
  ⟨by decide, by decide, by decide,
   basis_label_validation true ket0 ("Y") ("Q") (by decide) (by decide) (by decide)⟩

/-- C1, evaluated at the failing input: when Eve's measured bit is 1, the
parsed counts key `'10'` stores the value 10, never 1, so the `x(1)` resend
branch is dead and the re-prepared state is `|00⟩` — the receiver's qubit is
NOT re-prepared to 1 as claimed (the flipped state `|01⟩` differs from the
actual resend). The rest of the claim holds: both halves are reset, and the
sender's subsequent measurement at angle `a` yields 1 with probability
`sin² a` for every receiver angle and every Eve outcome, independent of any
entanglement. -/
theorem e91_eve_resend_divergence :
    eve_meas true = 10 ∧
    eve_meas true ≠ 1 ∧
    eve_resend (eve_meas true) = ket00 ∧
    x1Gate ket00 ≠ ket00 ∧
    (∀ (evBit : Bool) (a b : ℝ),
      sender_probOne (eve_resend (eve_meas evBit)) a b = Real.sin a ^ 2) := by
  have hket : ∀ a b : ℝ, sender_probOne ket00 a b = Real.sin a ^ 2 := by
    intro a b
    simp only [sender_probOne, measure_bell_pair_prob, jointProb, ry1Gate,
      ry0Gate, ket00]
    simp
    nlinarith [Real.sin_sq_add_cos_sq b, Real.sin_sq_add_cos_sq a]
  refine ⟨rfl, by decide, ?_, ?_, ?_⟩
  · simp [eve_resend, eve_meas, countsKeyParse]
  · intro h
    have h' := congrFun (congrFun h false) false
    simp [x1Gate, ket00] at h'
  · intro evBit a b
    cases evBit <;>
      simp only [eve_meas, countsKeyParse, Bool.toNat] <;>
      norm_num [eve_resend] <;>
      exact hket a b

end QKD
